/-
  Verification of the bahn-cli authentication subsystem.

  This file gives a shallow embedding, in Lean 4, of the auth core of the
  havocked/bahn-cli repository (package `internal/auth`: `oidc.go` and the
  token-store/JWT file defining `TokenSet`, `Claims`, `ParseJWT`,
  `TokenSetFromJWT`, `SaveTokens`, `LoadTokens`, `ClearTokens`), together
  with theorems settling the specification's claims about it.

  Modeling conventions:
  * Go strings are modeled as `List Char`.  All strings that the claims
    exercise are ASCII, where one `Char` corresponds to one Go byte.
  * `time.Time` is modeled as an absolute instant: integer nanoseconds
    since the Unix epoch (`GoTime`).  Go's monotonic-clock reading and
    location are irrelevant to the claims (comparisons and serialization
    depend only on the instant).
  * Impure inputs (the wall clock, random bytes, HTTP responses, stdin,
    the token file) are passed as explicit arguments.
  * Behavior of Go standard-library functions used by the source
    (`net/url.ParseQuery`, `encoding/json`, `encoding/base64`,
    `crypto/sha256`, `time` formatting/parsing, `os.WriteFile`) is
    modeled by Lean functions translated from the documented semantics
    of those functions; each such model carries a doc comment.
-/
import Mathlib

namespace BahnVerify

/-! ## String utilities (models of Go `strings` functions) -/

/-- Go `strings.Contains(s, sub)`: substring test. -/
def goContains (s sub : List Char) : Bool :=
  decide (sub <:+: s)

/-- Go `strings.Index(s, "#") >= 0` style search: index of first occurrence
of a character, as `Option Nat`. -/
def goIndexChar (s : List Char) (c : Char) : Option Nat :=
  s.indexOf? c

/-- Split a list at the first occurrence of a character, keeping neither
half's separator: Go `strings.Cut(s, sep)` for a one-character separator.
Returns `(before, after, found)`. -/
def goCut (s : List Char) (c : Char) : List Char × List Char × Bool :=
  match s.indexOf? c with
  | none => (s, [], false)
  | some i => (s.take i, s.drop (i+1), true)

/-! ## Time (model of Go `time.Time`)

`time.Time` values produced by this code are absolute instants; we model
them by their total nanoseconds since the Unix epoch. -/

/-- Model of Go `time.Time`: an absolute instant, as nanoseconds since the
Unix epoch. -/
structure GoTime where
  nanos : Int
  deriving DecidableEq, Repr

/-- Go `time.Second` in nanoseconds. -/
def goSecond : Int := 1000000000

/-- Go `time.Unix(sec, nsec)`. -/
def GoTime.unix (sec nsec : Int) : GoTime :=
  ⟨sec * goSecond + nsec⟩

/-- Go `t.After(u)`: strict instant comparison. -/
def GoTime.after (t u : GoTime) : Bool :=
  decide (u.nanos < t.nanos)

/-- Go `t.Add(d)` for a duration of `d` nanoseconds. -/
def GoTime.addDur (t : GoTime) (d : Int) : GoTime :=
  ⟨t.nanos + d⟩

/-- Unix seconds of an instant (floor). -/
def GoTime.sec (t : GoTime) : Int := t.nanos / goSecond

/-- Sub-second nanoseconds of an instant, in `[0, 1e9)`. -/
def GoTime.nsec (t : GoTime) : Int := t.nanos % goSecond

/-! ## `TokenSet` and its introspection helpers

Translated from the token file of `internal/auth` (struct `TokenSet`,
methods `IsExpired`, `NeedsRefresh`, `TimeRemaining`).  The impure call
`time.Now()` is passed in as the explicit argument `now`. -/

/-- Go struct `TokenSet` (json tags: accessToken, idToken, expiresAt,
kundenkontoid, sub, username). -/
structure TokenSet where
  AccessToken : List Char
  IDToken : List Char
  ExpiresAt : GoTime
  Kundenkontoid : List Char
  Sub : List Char
  Username : List Char
  deriving DecidableEq, Repr

/-- Go struct `Claims` (parsed JWT claims). -/
structure Claims where
  Exp : Int
  Iat : Int
  Sub : List Char
  Kundenkontoid : List Char
  PreferredUsername : List Char
  Scope : List Char
  Groups : List (List Char)
  deriving DecidableEq, Repr

/-- `func (t *TokenSet) IsExpired() bool { return time.Now().After(t.ExpiresAt) }` -/
def TokenSet.IsExpired (t : TokenSet) (now : GoTime) : Bool :=
  now.after t.ExpiresAt

/-- `func (t *TokenSet) NeedsRefresh() bool
    { return time.Now().After(t.ExpiresAt.Add(-30 * time.Second)) }` -/
def TokenSet.NeedsRefresh (t : TokenSet) (now : GoTime) : Bool :=
  now.after (t.ExpiresAt.addDur (-30 * goSecond))

/-- `func (t *TokenSet) TimeRemaining() time.Duration { return time.Until(t.ExpiresAt) }`
(nanoseconds until expiry). -/
def TokenSet.TimeRemaining (t : TokenSet) (now : GoTime) : Int :=
  t.ExpiresAt.nanos - now.nanos

/-- C4: `NeedsRefresh` at instant `now` is true exactly when `IsExpired`
would be true at `now + 30s` (so it becomes true exactly 30 seconds before
`IsExpired`, never earlier), equivalently exactly when fewer than 30
seconds remain before expiry. -/
theorem needsRefresh_eq_isExpired_plus30 (t : TokenSet) (now : GoTime) :
    t.NeedsRefresh now = t.IsExpired (now.addDur (30 * goSecond)) ∧
    (t.NeedsRefresh now = true ↔ t.TimeRemaining now < 30 * goSecond) := by
  unfold TokenSet.NeedsRefresh TokenSet.IsExpired TokenSet.TimeRemaining
    GoTime.after GoTime.addDur goSecond
  constructor
  · simp only [decide_eq_decide]
    omega
  · simp only [decide_eq_true_eq]
    omega

/-! ## Model of `net/url.ParseQuery` and `url.Values.Get`

Translated from the Go standard library (`net/url`): `parseQuery` splits
on `&`, rejects chunks containing `;`, skips empty chunks, cuts each
chunk at the first `=`, percent- and plus-unescapes key and value
(`QueryUnescape` in query mode), records the first unescape error (a
later semicolon error overwrites a recorded error, as in the source),
and appends surviving pairs in order.  `Values.Get` returns the first
value recorded for a key, or the empty string. -/

/-- Shorthand: the character list of a string literal. -/
def str (s : String) : List Char := s.data

/-- Go `ishex` from `net/url`. -/
def ishex (c : Char) : Bool :=
  ('0' ≤ c && c ≤ '9') || ('a' ≤ c && c ≤ 'f') || ('A' ≤ c && c ≤ 'F')

/-- Go `unhex` from `net/url`. -/
def unhex (c : Char) : Nat :=
  if '0' ≤ c && c ≤ '9' then c.toNat - '0'.toNat
  else if 'a' ≤ c && c ≤ 'f' then c.toNat - 'a'.toNat + 10
  else if 'A' ≤ c && c ≤ 'F' then c.toNat - 'A'.toNat + 10
  else 0

/-- The message of a `url.EscapeError` (Go renders the offending snippet
with `strconv.Quote`; the snippet is at most `%` plus two characters). -/
def escapeErrMsg (snippet : List Char) : List Char :=
  str "invalid URL escape \"" ++ snippet ++ str "\""

/-- Go `url.QueryUnescape`: percent-decoding with `+` decoded as space;
a `%` not followed by two hex digits is an error carrying the offending
snippet of at most three characters.  Percent-decoded bytes are modeled
as the character of the byte's value (identical to Go for ASCII data). -/
def queryUnescape : List Char → Except (List Char) (List Char)
  | [] => .ok []
  | '%' :: a :: b :: rest =>
      if ishex a && ishex b then
        (queryUnescape rest).map (Char.ofNat (16 * unhex a + unhex b) :: ·)
      else .error (escapeErrMsg ['%', a, b])
  | ['%'] => .error (escapeErrMsg ['%'])
  | ['%', a] => .error (escapeErrMsg ['%', a])
  | '+' :: rest => (queryUnescape rest).map (' ' :: ·)
  | c :: rest => (queryUnescape rest).map (c :: ·)

/-- Go `url.Values`, in append order. -/
abbrev GoValues := List (List Char × List Char)

/-- Go `url.Values.Get`: first value for the key, or empty. -/
def valuesGet (ps : GoValues) (k : List Char) : List Char :=
  match ps.find? (fun p => decide (p.1 = k)) with
  | none => []
  | some p => p.2

/-- Split a character list on a separator character (all chunks, empty
chunks included).  Repeatedly applying Go `strings.Cut(query, "&")` until
the remainder is empty visits exactly the nonempty-relevant prefix of
these chunks; since `parseQuery` skips empty chunks, iterating over this
split is behaviorally identical to the source loop. -/
def splitSep (c : Char) : List Char → List (List Char)
  | [] => [[]]
  | x :: rest =>
    if x = c then [] :: splitSep c rest
    else
      match splitSep c rest with
      | [] => [[x]]
      | h :: t => (x :: h) :: t

/-- The loop of Go `url.parseQuery` over the `&`-chunks, threading the
error variable `err` exactly as the source does (a semicolon error
overwrites `err`, an unescape error is kept only if `err` is still nil). -/
def parseQueryLoop : List (List Char) → Option (List Char) →
    GoValues × Option (List Char)
  | [], err => ([], err)
  | key0 :: rest, err =>
    if goContains key0 [';'] then
      parseQueryLoop rest (some (str "invalid semicolon separator in query"))
    else if key0 = [] then
      parseQueryLoop rest err
    else
      let kv := goCut key0 '='
      match queryUnescape kv.1 with
      | .error e =>
          parseQueryLoop rest (match err with | none => some e | some _ => err)
      | .ok k =>
        match queryUnescape kv.2.1 with
        | .error e =>
            parseQueryLoop rest (match err with | none => some e | some _ => err)
        | .ok v =>
          let r := parseQueryLoop rest err
          ((k, v) :: r.1, r.2)

/-- Go `url.ParseQuery`: resulting values (in order) and error. -/
def parseQueryGo (query : List Char) : GoValues × Option (List Char) :=
  parseQueryLoop (splitSep '&' query) none

/-! ## `extractFragmentParams` (oidc.go)

Translated from `internal/auth/oidc.go` lines 135-159: take everything
after the first `#` (or the whole string if there is none), parse it as a
query, surface a query-parse error as "invalid URL fragment", a nonempty
`error` parameter as "auth error: ... (...)", a missing/empty `code`
parameter as "no auth code found in URL", and otherwise return
`(code, state)`. -/

/-- Everything after the first occurrence of `c`, if `c` occurs. -/
def afterFirst (c : Char) : List Char → Option (List Char)
  | [] => none
  | x :: rest => if x = c then some rest else afterFirst c rest

/-- The fragment `oidc.go` parses: everything after the first `#`
(`strings.Index` plus slicing), or the whole string when no `#` occurs. -/
def fragmentOf (rawURL : List Char) : List Char :=
  (afterFirst '#' rawURL).getD rawURL

def extractFragmentParams (rawURL : List Char) :
    Except (List Char) (List Char × List Char) :=
  let pr := parseQueryGo (fragmentOf rawURL)
  match pr.2 with
  | some e => .error (str "invalid URL fragment: " ++ e)
  | none =>
    let errParam := valuesGet pr.1 (str "error")
    if errParam ≠ [] then
      .error (str "auth error: " ++ errParam ++ str " (" ++
        valuesGet pr.1 (str "error_description") ++ str ")")
    else
      let code := valuesGet pr.1 (str "code")
      if code = [] then .error (str "no auth code found in URL")
      else .ok (code, valuesGet pr.1 (str "state"))

example :
    extractFragmentParams (str "https://x.y/p#code=abc&state=st") =
      .ok (str "abc", str "st") := by rfl

example :
    extractFragmentParams (str "code=abc&state=st") =
      .ok (str "abc", str "st") := by rfl

example :
    extractFragmentParams (str "state=st") =
      .error (str "no auth code found in URL") := by rfl

example :
    extractFragmentParams (str "a=%zz") =
      .error (str "invalid URL fragment: invalid URL escape \"%zz\"") := by
  rfl

example :
    extractFragmentParams (str "error=login_required&state=st") =
      .error (str "auth error: login_required ()") := by rfl

/-! ## Callback handling in the login variants (C1)

`Login` in `oidc.go` (manual-paste variant) and `loginWithBrowserPoll` in
the browser-poll draft both obtain a candidate callback URL and decide on
it.  The decision logic on one observed URL is modeled below; the
verifier/state generation and the browser/stdin I/O around it are passed
in as the explicit arguments. -/

/-- Outcome of the manual-paste variant's handling of the pasted URL
(`oidc.go` lines 60-71): either a typed failure or the code that is
passed on to `exchangeCode`. -/
def loginProcessCallback (state pastedURL : List Char) :
    Except (List Char) (List Char) :=
  match extractFragmentParams pastedURL with
  | .error e => .error e
  | .ok (code, returnedState) =>
    if returnedState ≠ state then
      .error (str "state mismatch: possible CSRF attack")
    else .ok code

/-- Outcome of one polling iteration of `loginWithBrowserPoll` on the
observed browser-tab URL (lines 88-104 of the browser-poll draft):
either keep polling (`continue`) or hand the code to `exchangeCode`. -/
inductive PollStep where
  | cont : PollStep
  | exchange : List Char → PollStep
  deriving DecidableEq, Repr

def loginPollStep (state tabURL : List Char) : PollStep :=
  if ¬ goContains tabURL state then .cont
  else
    match extractFragmentParams tabURL with
    | .error _ => .cont
    | .ok (code, returnedState) =>
      if returnedState ≠ state then .cont
      else .exchange code

/-! ## The silent-refresh decision (C2)

`Refresh` in `oidc.go` lines 106-130: after the `prompt=none` request
returns, the decision depends only on the HTTP status code and the
`Location` header (and the attempt's `state`).  There is no retry: the
function returns directly in every branch. -/

inductive RefreshStep where
  | err : List Char → RefreshStep
  | exchange : List Char → RefreshStep
  deriving DecidableEq, Repr

def refreshStep (status : Nat) (location state : List Char) : RefreshStep :=
  if status ≠ 302 ∧ status ≠ 303 then
    .err (str "refresh failed: expected redirect, got status " ++
      (Nat.repr status).data ++
      str " (session likely expired — run `bahn auth login`)")
  else if location = [] then
    .err (str "refresh failed: no redirect location")
  else
    match extractFragmentParams location with
    | .error e =>
      if goContains location (str "error=login_required") then
        .err (str "session expired — run `bahn auth login` to re-authenticate")
      else
        .err (str "refresh failed: " ++ e)
    | .ok (code, returnedState) =>
      if returnedState ≠ state then
        .err (str "state mismatch during refresh")
      else .exchange code

/-- The "session expired" classification of a failure message: it names
the expired session and instructs the caller to fall back to the full
interactive login (`bahn auth login`). -/
def SessionExpiredMsg (msg : List Char) : Prop :=
  goContains msg (str "expired") = true ∧
  goContains msg (str "run `bahn auth login`") = true

instance (msg : List Char) : Decidable (SessionExpiredMsg msg) := by
  unfold SessionExpiredMsg; infer_instance

/-! ## Substring helper lemmas -/

theorem goContains_of_infix {s sub : List Char} (h : sub <:+: s) :
    goContains s sub = true := by
  simpa [goContains] using h

theorem infix_append_right {sub l₂ : List Char} (l₁ : List Char)
    (h : sub <:+: l₂) : sub <:+: l₁ ++ l₂ :=
  h.trans (List.suffix_append l₁ l₂).isInfix

theorem infix_append_left {sub l₁ : List Char} (l₂ : List Char)
    (h : sub <:+: l₁) : sub <:+: l₁ ++ l₂ :=
  h.trans (List.prefix_append l₁ l₂).isInfix

/-! ## Theorems for C1 -/

theorem afterFirst_append {u : List Char} (f : List Char) (h : '#' ∉ u) :
    afterFirst '#' (u ++ '#' :: f) = some f := by
  induction u with
  | nil => simp [afterFirst]
  | cons x u ih =>
    simp only [List.mem_cons, not_or] at h
    simp [afterFirst, (Ne.symm h.1 : ¬ x = '#'), ih h.2]

theorem afterFirst_eq_none {f : List Char} (h : '#' ∉ f) :
    afterFirst '#' f = none := by
  induction f with
  | nil => rfl
  | cons x u ih =>
    simp only [List.mem_cons, not_or] at h
    simp [afterFirst, (Ne.symm h.1 : ¬ x = '#'), ih h.2]

/-- C1 counterexample: in the browser-poll variant, a callback whose
`state` differs from the attempt's `state` does not make the attempt fail
with a state-mismatch error — the iteration is skipped and polling
continues — so the claim's "fails with a state-mismatch security error
... for every callback-acquisition variant" is false. -/
theorem loginPollStep_mismatch_continues :
    extractFragmentParams (str "https://x#code=abc&state=stX") =
      .ok (str "abc", str "stX") ∧
    str "stX" ≠ str "st" ∧
    loginPollStep (str "st") (str "https://x#code=abc&state=stX") = .cont := by
  exact ⟨by rfl, by decide, by rfl⟩

/-- C1 (amended): a callback response whose `state` differs from the
attempt's `state` never proceeds to token exchange in either variant: the
manual-paste variant fails the attempt with the state-mismatch security
error (and its successes always carry the attempt's own state), while the
browser-poll variant skips the response and keeps polling (and only ever
exchanges a code whose response echoed the attempt's state). -/
theorem stateMismatch_never_exchanged :
    (∀ state u code rs, extractFragmentParams u = .ok (code, rs) →
      rs ≠ state → loginProcessCallback state u =
        .error (str "state mismatch: possible CSRF attack")) ∧
    (∀ state u code, loginProcessCallback state u = .ok code →
      extractFragmentParams u = .ok (code, state)) ∧
    (∀ state u code rs, extractFragmentParams u = .ok (code, rs) →
      rs ≠ state → loginPollStep state u = .cont) ∧
    (∀ state u code, loginPollStep state u = .exchange code →
      extractFragmentParams u = .ok (code, state)) := by
  refine ⟨?_, ?_, ?_, ?_⟩
  · intro state u code rs h hne
    simp [loginProcessCallback, h, hne]
  · intro state u code h
    unfold loginProcessCallback at h
    cases he : extractFragmentParams u with
    | error e => rw [he] at h; cases h
    | ok p =>
      obtain ⟨c, rs⟩ := p
      rw [he] at h
      by_cases hrs : rs = state
      · simp [hrs] at h
        rw [hrs, h]
      · simp [hrs] at h
  · intro state u code rs h hne
    unfold loginPollStep
    by_cases hc : goContains u state = true
    · simp [hc, h, hne]
    · simp [hc]
  · intro state u code h
    unfold loginPollStep at h
    by_cases hc : goContains u state = true
    · simp only [hc, Bool.not_true, reduceIte] at h
      cases he : extractFragmentParams u with
      | error e => rw [he] at h; cases h
      | ok p =>
        obtain ⟨c, rs⟩ := p
        rw [he] at h
        by_cases hrs : rs = state
        · simp [hrs] at h
          rw [hrs, h]
        · simp [hrs] at h
    · simp [hc] at h

/-- C1 witness: the amended theorem at concrete inputs. -/
theorem stateMismatch_never_exchanged_witness :
    loginProcessCallback (str "st") (str "https://x#code=abc&state=stX") =
      .error (str "state mismatch: possible CSRF attack") ∧
    loginPollStep (str "st") (str "code=abc&state=stX") = .cont := by
  refine ⟨?_, ?_⟩
  · exact stateMismatch_never_exchanged.1 (str "st") _ (str "abc") (str "stX")
      (by rfl) (by decide)
  · exact stateMismatch_never_exchanged.2.2.1 (str "st") _ (str "abc")
      (str "stX") (by rfl) (by decide)

/-! ## Theorems for C2 -/

/-- C2 counterexample: a redirect whose `Location` carries
`error=interaction_required` is surfaced as a generic
"refresh failed: auth error: ..." message, which is not the
session-expired classification (it neither mentions the expired session
nor instructs a fallback to `bahn auth login`), refuting the claim that
an `interaction_required` provider error is classified session-expired. -/
theorem refresh_interaction_required_generic :
    refreshStep 302 (str "https://r#error=interaction_required&state=st")
        (str "st") =
      .err (str "refresh failed: auth error: interaction_required ()") ∧
    ¬ SessionExpiredMsg
        (str "refresh failed: auth error: interaction_required ()") := by
  exact ⟨by rfl, by decide⟩

/-- C2 (amended): a silent-refresh outcome that is a `login_required`
provider error in the redirect `Location`, or any non-redirect HTTP
response, is classified as session-expired — the returned failure message
names the expired session and instructs the caller to fall back to the
full interactive login (`bahn auth login`) — and `Refresh` returns it
directly without retrying.  (An `interaction_required` error instead
falls through to a generic "refresh failed" message.) -/
theorem refresh_sessionExpired_classification :
    (∀ (status : Nat) (location state : List Char),
      status ≠ 302 → status ≠ 303 →
      ∃ msg, refreshStep status location state = .err msg ∧
        SessionExpiredMsg msg) ∧
    (∀ (status : Nat) (location state e : List Char),
      (status = 302 ∨ status = 303) → location ≠ [] →
      extractFragmentParams location = .error e →
      goContains location (str "error=login_required") = true →
      refreshStep status location state =
        .err (str "session expired — run `bahn auth login` to re-authenticate") ∧
      SessionExpiredMsg
        (str "session expired — run `bahn auth login` to re-authenticate")) := by
  constructor
  · intro status location state h2 h3
    refine ⟨str "refresh failed: expected redirect, got status " ++
      ((Nat.repr status).data ++
        str " (session likely expired — run `bahn auth login`)"), ?_, ?_, ?_⟩
    · simp [refreshStep, h2, h3]
    · exact goContains_of_infix <| infix_append_right _ <|
        infix_append_right _ <| by decide
    · exact goContains_of_infix <| infix_append_right _ <|
        infix_append_right _ <| by decide
  · intro status location state e hst hloc hex hcont
    refine ⟨?_, by decide⟩
    have hs : ¬ (status ≠ 302 ∧ status ≠ 303) := by
      rcases hst with h | h <;> simp [h]
    simp [refreshStep, hs, hloc, hex, hcont]

/-- C2 witness: the amended theorem at concrete inputs. -/
theorem refresh_sessionExpired_classification_witness :
    (∃ msg, refreshStep 500 (str "") (str "st") = .err msg ∧
      SessionExpiredMsg msg) ∧
    refreshStep 302 (str "https://r#error=login_required&state=st")
        (str "st") =
      .err (str "session expired — run `bahn auth login` to re-authenticate") := by
  constructor
  · exact refresh_sessionExpired_classification.1 500 (str "") (str "st")
      (by decide) (by decide)
  · exact (refresh_sessionExpired_classification.2 302
      (str "https://r#error=login_required&state=st") (str "st")
      (str "auth error: login_required ()") (Or.inl rfl) (by decide)
      (by rfl) (by rfl)).1

/-! ## Theorems for C9 -/

/-- C9 counterexample: the input `a=%zz` contains no `code` parameter and
no `error` parameter, yet `extractFragmentParams` fails with the
"invalid URL fragment" error (the query itself is unparsable), not with
the "no auth code" error, refuting the claim that every code-less,
error-less input yields the "no auth code" failure. -/
theorem extractFragmentParams_badEscape_error :
    goContains (str "a=%zz") (str "code") = false ∧
    goContains (str "a=%zz") (str "error") = false ∧
    extractFragmentParams (str "a=%zz") =
      .error (str "invalid URL fragment: invalid URL escape \"%zz\"") ∧
    str "invalid URL fragment: invalid URL escape \"%zz\"" ≠
      str "no auth code found in URL" := by
  exact ⟨by rfl, by rfl, by rfl, by decide⟩

/-- C9 (amended): `extractFragmentParams` yields the same `(code, state)`
pair for a full URL `prefix#fragment` and for the bare fragment string;
an input whose fragment parses as a query with no `error` parameter and
no nonempty `code` parameter fails with the descriptive
"no auth code found in URL" error; an input whose fragment does not parse
as a query fails with the (also descriptive) "invalid URL fragment"
error instead. -/
theorem extractFragmentParams_spec :
    (∀ u f, '#' ∉ u → '#' ∉ f →
      extractFragmentParams (u ++ '#' :: f) = extractFragmentParams f) ∧
    (∀ s, (parseQueryGo (fragmentOf s)).2 = none →
      valuesGet (parseQueryGo (fragmentOf s)).1 (str "error") = [] →
      valuesGet (parseQueryGo (fragmentOf s)).1 (str "code") = [] →
      extractFragmentParams s = .error (str "no auth code found in URL")) ∧
    (∀ s e, (parseQueryGo (fragmentOf s)).2 = some e →
      extractFragmentParams s = .error (str "invalid URL fragment: " ++ e)) := by
  refine ⟨?_, ?_, ?_⟩
  · intro u f hu hf
    have hfrag : fragmentOf (u ++ '#' :: f) = fragmentOf f := by
      simp [fragmentOf, afterFirst_append f hu, afterFirst_eq_none hf]
    simp only [extractFragmentParams, hfrag]
  · intro s h1 h2 h3
    simp [extractFragmentParams, h1, h2, h3]
  · intro s e h
    simp [extractFragmentParams, h]

/-- C9 witness: the amended theorem at concrete inputs. -/
theorem extractFragmentParams_spec_witness :
    extractFragmentParams (str "https://www.bahn.de/p" ++ '#' ::
        str "code=abc&state=st") =
      extractFragmentParams (str "code=abc&state=st") ∧
    extractFragmentParams (str "state=st") =
      .error (str "no auth code found in URL") ∧
    extractFragmentParams (str "a=%zz") =
      .error (str "invalid URL fragment: " ++
        str "invalid URL escape \"%zz\"") := by
  refine ⟨?_, ?_, ?_⟩
  · exact extractFragmentParams_spec.1 (str "https://www.bahn.de/p")
      (str "code=abc&state=st") (by decide) (by decide)
  · exact extractFragmentParams_spec.2.1 (str "state=st") (by rfl) (by rfl)
      (by rfl)
  · exact extractFragmentParams_spec.2.2 (str "a=%zz")
      (str "invalid URL escape \"%zz\"") (by rfl)

/-! ## Base64 (model of Go `encoding/base64`)

Bytes are modeled as `Nat` values below 256.  `base64urlEncode` is Go's
`base64.RawURLEncoding.EncodeToString` (URL-safe alphabet, no padding);
`base64urlDecode` is `base64.URLEncoding.DecodeString` (URL-safe
alphabet, `=`-padded, trailing bits ignored as in Go's default
non-strict mode). -/

def b64urlAlphabet : List Char :=
  str "ABCDEFGHIJKLMNOPQRSTUVWXYZabcdefghijklmnopqrstuvwxyz0123456789-_"

def b64char (n : Nat) : Char := b64urlAlphabet.getD n 'A'

def base64urlEncode : List Nat → List Char
  | [] => []
  | [b1] => [b64char (b1 / 4), b64char (b1 % 4 * 16)]
  | [b1, b2] =>
    [b64char (b1 / 4), b64char (b1 % 4 * 16 + b2 / 16), b64char (b2 % 16 * 4)]
  | b1 :: b2 :: b3 :: rest =>
    b64char (b1 / 4) :: b64char (b1 % 4 * 16 + b2 / 16) ::
      b64char (b2 % 16 * 4 + b3 / 64) :: b64char (b3 % 64) ::
      base64urlEncode rest

/-- Value of a base64url alphabet character. -/
def b64val (c : Char) : Option Nat := b64urlAlphabet.indexOf? c

def base64urlDecode : List Char → Option (List Nat)
  | [] => some []
  | c1 :: c2 :: c3 :: c4 :: rest =>
    match b64val c1, b64val c2 with
    | some v1, some v2 =>
      if c3 = '=' then
        if c4 = '=' ∧ rest = [] then some [v1 * 4 + v2 / 16] else none
      else
        match b64val c3 with
        | some v3 =>
          if c4 = '=' then
            if rest = [] then some [v1 * 4 + v2 / 16, v2 % 16 * 16 + v3 / 4]
            else none
          else
            match b64val c4 with
            | some v4 =>
              (base64urlDecode rest).map
                ([v1 * 4 + v2 / 16, v2 % 16 * 16 + v3 / 4, v3 % 4 * 64 + v4] ++ ·)
            | none => none
        | none => none
    | _, _ => none
  | _ => none

/-! ## SHA-256 (model of Go `crypto/sha256.Sum256`)

A direct FIPS 180-4 implementation over byte lists, with 32-bit words as
`Nat` reduced modulo `2^32`. -/

def w32 (n : Nat) : Nat := n % 4294967296

def rotr32 (n x : Nat) : Nat := w32 ((x >>> n) ||| (x <<< (32 - n)))

def sha256K : List Nat := [
  1116352408, 1899447441, 3049323471, 3921009573, 961987163, 1508970993, 2453635748, 2870763221,
  3624381080, 310598401, 607225278, 1426881987, 1925078388, 2162078206, 2614888103, 3248222580,
  3835390401, 4022224774, 264347078, 604807628, 770255983, 1249150122, 1555081692, 1996064986,
  2554220882, 2821834349, 2952996808, 3210313671, 3336571891, 3584528711, 113926993, 338241895,
  666307205, 773529912, 1294757372, 1396182291, 1695183700, 1986661051, 2177026350, 2456956037,
  2730485921, 2820302411, 3259730800, 3345764771, 3516065817, 3600352804, 4094571909, 275423344,
  430227734, 506948616, 659060556, 883997877, 958139571, 1322822218, 1537002063, 1747873779,
  1955562222, 2024104815, 2227730452, 2361852424, 2428436474, 2756734187, 3204031479, 3329325298]

/-- SHA-256 message padding: `0x80`, zeros, and the 64-bit big-endian bit
length, to a multiple of 64 bytes. -/
def sha256Pad (msg : List Nat) : List Nat :=
  let L := msg.length
  let zeros := (64 - (L + 9) % 64) % 64
  let bits := 8 * L
  msg ++ 128 :: List.replicate zeros 0 ++
    [w32 (bits >>> 56) % 256, (bits >>> 48) % 256, (bits >>> 40) % 256,
     (bits >>> 32) % 256, (bits >>> 24) % 256, (bits >>> 16) % 256,
     (bits >>> 8) % 256, bits % 256]

/-- Big-endian 4-byte groups to 32-bit words. -/
def bytesToWords : List Nat → List Nat
  | b1 :: b2 :: b3 :: b4 :: rest =>
    (b1 <<< 24 + b2 <<< 16 + b3 <<< 8 + b4) :: bytesToWords rest
  | _ => []

/-- Extend the 16 block words to the 64-entry message schedule. -/
def sha256Schedule (ws : List Nat) : List Nat :=
  (List.range 48).foldl
    (fun acc _ =>
      let n := acc.length
      let w15 := acc.getD (n - 15) 0
      let w2 := acc.getD (n - 2) 0
      let s0 := rotr32 7 w15 ^^^ rotr32 18 w15 ^^^ (w15 >>> 3)
      let s1 := rotr32 17 w2 ^^^ rotr32 19 w2 ^^^ (w2 >>> 10)
      acc ++ [w32 (acc.getD (n - 16) 0 + s0 + acc.getD (n - 7) 0 + s1)])
    ws

/-- One compression round. -/
def sha256Round (st : List Nat) (kw : Nat × Nat) : List Nat :=
  match st with
  | [a, b, c, d, e, f, g, h] =>
    let S1 := rotr32 6 e ^^^ rotr32 11 e ^^^ rotr32 25 e
    let ch := (e &&& f) ^^^ ((4294967295 - e) &&& g)
    let t1 := w32 (h + S1 + ch + kw.1 + kw.2)
    let S0 := rotr32 2 a ^^^ rotr32 13 a ^^^ rotr32 22 a
    let mj := (a &&& b) ^^^ (a &&& c) ^^^ (b &&& c)
    let t2 := w32 (S0 + mj)
    [w32 (t1 + t2), a, b, c, w32 (d + t1), e, f, g]
  | st => st

/-- Process one 64-byte block. -/
def sha256Block (hs : List Nat) (block : List Nat) : List Nat :=
  let ws := sha256Schedule (bytesToWords block)
  let st := (sha256K.zip ws).foldl sha256Round hs
  (hs.zip st).map (fun p => w32 (p.1 + p.2))

/-- Split into 64-byte blocks. -/
def sha256Blocks : List Nat → List (List Nat)
  | [] => []
  | b :: rest => (b :: rest).take 64 :: sha256Blocks ((b :: rest).drop 64)
termination_by msg => msg.length
decreasing_by simp [List.length_drop]; omega

/-- Go `sha256.Sum256`: the 32-byte digest. -/
def sha256 (msg : List Nat) : List Nat :=
  let init : List Nat := [1779033703, 3144134277, 1013904242, 2773480762,
    1359893119, 2600822924, 528734635, 1541459225]
  let hs := (sha256Blocks (sha256Pad msg)).foldl sha256Block init
  hs.flatMap (fun h => [(h >>> 24) % 256, (h >>> 16) % 256, (h >>> 8) % 256, h % 256])

/-! ## `generatePKCE` (oidc.go lines 163-172)

The 96 bytes drawn from `crypto/rand` are the explicit argument. -/

def generatePKCE (buf : List Nat) : List Char × List Char :=
  let verifier := base64urlEncode buf
  let hash := sha256 (verifier.map Char.toNat)
  (verifier, base64urlEncode hash)

/-- URL-safe characters: the unreserved base64url alphabet `A-Z a-z 0-9 - _`. -/
def urlSafeChar (c : Char) : Bool := decide (c ∈ b64urlAlphabet)

/-! ## Theorems for C8 -/

theorem b64urlAlphabet_length : b64urlAlphabet.length = 64 := by rfl

theorem b64char_mem (n : Nat) : b64char n ∈ b64urlAlphabet := by
  rcases Nat.lt_or_ge n 64 with h | h
  · interval_cases n <;> decide
  · unfold b64char
    rw [List.getD_eq_default _ _ (by rw [b64urlAlphabet_length]; omega)]
    decide

theorem base64urlEncode_mem (bs : List Nat) :
    ∀ c ∈ base64urlEncode bs, c ∈ b64urlAlphabet := by
  induction bs using base64urlEncode.induct with
  | case1 => simp [base64urlEncode]
  | case2 b1 =>
    intro c hc
    simp [base64urlEncode] at hc
    rcases hc with h | h <;> (subst h; exact b64char_mem _)
  | case3 b1 b2 =>
    intro c hc
    simp [base64urlEncode] at hc
    rcases hc with h | h | h <;> (subst h; exact b64char_mem _)
  | case4 b1 b2 b3 rest ih =>
    intro c hc
    simp only [base64urlEncode, List.mem_cons] at hc
    rcases hc with h | h | h | h | h
    · subst h; exact b64char_mem _
    · subst h; exact b64char_mem _
    · subst h; exact b64char_mem _
    · subst h; exact b64char_mem _
    · exact ih c h

theorem base64urlEncode_length_mod3 (bs : List Nat) (h : bs.length % 3 = 0) :
    (base64urlEncode bs).length = bs.length / 3 * 4 := by
  induction bs using base64urlEncode.induct with
  | case1 => simp [base64urlEncode]
  | case2 b1 => simp at h
  | case3 b1 b2 => simp at h
  | case4 b1 b2 b3 rest ih =>
    simp only [List.length_cons, base64urlEncode] at h ⊢
    rw [ih (by omega)]
    omega

/-- C8: for a 96-byte random input, `generatePKCE` returns a verifier
that is the base64url (no padding) encoding of those bytes, and a
challenge that is the base64url (no padding) encoding of the SHA-256
hash of the verifier string; the verifier consists only of URL-safe
characters and is 128 (hence at least 43) characters long. -/
theorem generatePKCE_spec (buf : List Nat) (h : buf.length = 96) :
    (generatePKCE buf).1 = base64urlEncode buf ∧
    (generatePKCE buf).2 =
      base64urlEncode (sha256 ((generatePKCE buf).1.map Char.toNat)) ∧
    (∀ c ∈ (generatePKCE buf).1, urlSafeChar c = true) ∧
    (generatePKCE buf).1.length = 128 ∧ 43 ≤ (generatePKCE buf).1.length := by
  have hlen : (generatePKCE buf).1.length = 128 := by
    show (base64urlEncode buf).length = 128
    rw [base64urlEncode_length_mod3 buf (by omega), h]
  refine ⟨rfl, rfl, ?_, hlen, by omega⟩
  intro c hc
  simp only [urlSafeChar, decide_eq_true_eq]
  exact base64urlEncode_mem buf c hc

/-- C8 witness: the theorem at a concrete 96-byte buffer. -/
theorem generatePKCE_spec_witness :
    (generatePKCE (List.replicate 96 0)).1 =
      base64urlEncode (List.replicate 96 0) ∧
    (generatePKCE (List.replicate 96 0)).2 =
      base64urlEncode
        (sha256 ((generatePKCE (List.replicate 96 0)).1.map Char.toNat)) ∧
    (∀ c ∈ (generatePKCE (List.replicate 96 0)).1, urlSafeChar c = true) ∧
    (generatePKCE (List.replicate 96 0)).1.length = 128 ∧
    43 ≤ (generatePKCE (List.replicate 96 0)).1.length :=
  generatePKCE_spec (List.replicate 96 0) (by simp)

/-! ## JSON (model of Go `encoding/json` decoding)

A generic JSON value parser (fuel-based; the fuel is a modeling artifact
and the entry point supplies enough for any input), plus struct decoders
mirroring `json.Unmarshal` into the concrete structs the source uses:
unknown keys are ignored, duplicate keys take the last value, `null`
leaves a field at its zero value, a present field of the wrong type is
an error, and trailing non-whitespace after the top-level value is an
error.  (Unicode surrogate-pair escapes decode as two replacement
characters rather than one combined rune, and Go's case-insensitive
field-name fallback is not modeled; neither occurs in data produced or
matched by this code.) -/

inductive Json where
  | null : Json
  | bool : Bool → Json
  | num : List Char → Json
  | str : List Char → Json
  | arr : List Json → Json
  | obj : List (List Char × Json) → Json

/-- JSON whitespace per RFC 8259 (space, tab, newline, carriage return). -/
def jsonSkipWs : List Char → List Char
  | c :: rest =>
    if c = ' ' || c = '\t' || c = '\n' || c = '\r' then jsonSkipWs rest
    else c :: rest
  | [] => []

/-- Single-character JSON escapes. -/
def jsonUnescapeChar (c : Char) : Option Char :=
  if c = '"' then some '"'
  else if c = '\\' then some '\\'
  else if c = '/' then some '/'
  else if c = 'b' then some (Char.ofNat 8)
  else if c = 'f' then some (Char.ofNat 12)
  else if c = 'n' then some '\n'
  else if c = 'r' then some '\r'
  else if c = 't' then some '\t'
  else none

/-- Parse a JSON string body (after the opening quote), returning the
decoded characters and the input after the closing quote.  Raw control
characters are rejected; a lone surrogate escape decodes to U+FFFD. -/
def jsonParseStringBody : List Char → Option (List Char × List Char)
  | [] => none
  | c :: rest =>
    if c = '"' then some ([], rest)
    else if c = '\\' then
      match rest with
      | 'u' :: h1 :: h2 :: h3 :: h4 :: rest2 =>
        if ishex h1 && ishex h2 && ishex h3 && ishex h4 then
          let code := unhex h1 * 4096 + unhex h2 * 256 + unhex h3 * 16 +
            unhex h4
          let ch := if 55296 ≤ code ∧ code < 57344 then Char.ofNat 65533
                    else Char.ofNat code
          (jsonParseStringBody rest2).map (fun p => (ch :: p.1, p.2))
        else none
      | e :: rest2 =>
        match jsonUnescapeChar e with
        | some ch => (jsonParseStringBody rest2).map (fun p => (ch :: p.1, p.2))
        | none => none
      | [] => none
    else if c.toNat < 32 then none
    else (jsonParseStringBody rest).map (fun p => (c :: p.1, p.2))

/-- Characters that may appear in a JSON number literal. -/
def jsonNumChar (c : Char) : Bool :=
  c.isDigit || c = '-' || c = '+' || c = '.' || c = 'e' || c = 'E'

/-- Drop a run of digits. -/
def skipDigits : List Char → List Char
  | c :: rest => if c.isDigit then skipDigits rest else c :: rest
  | [] => []

/-- The integer part of a JSON number: `0`, or a nonzero digit followed
by digits. -/
def jsonIntPart : List Char → Option (List Char)
  | '0' :: rest => some rest
  | c :: rest => if c.isDigit then some (skipDigits rest) else none
  | [] => none

/-- Full-match validity of a JSON number literal (RFC 8259 grammar). -/
def jsonNumValid (l : List Char) : Bool :=
  let l1 := match l with | '-' :: r => r | r => r
  match jsonIntPart l1 with
  | none => false
  | some r =>
    let fr : Option (List Char) :=
      match r with
      | '.' :: r3 =>
        match r3 with
        | c :: r4 => if c.isDigit then some (skipDigits r4) else none
        | [] => none
      | r3 => some r3
    match fr with
    | none => false
    | some r4 =>
      match r4 with
      | [] => true
      | e :: r5 =>
        (e = 'e' || e = 'E') &&
        (let r6 := match r5 with
          | s :: r7 => if s = '+' || s = '-' then r7 else s :: r7
          | [] => []
         match r6 with
         | c :: r7 => c.isDigit && decide (skipDigits r7 = [])
         | [] => false)

mutual

/-- Parse one JSON value, returning it and the remaining input. -/
def jsonParseValue : Nat → List Char → Option (Json × List Char)
  | 0, _ => none
  | fuel + 1, input =>
    match jsonSkipWs input with
    | [] => none
    | c :: rest =>
      if c = '"' then
        (jsonParseStringBody rest).map (fun p => (.str p.1, p.2))
      else if c = '\x7b' then
        jsonParseMembers fuel rest
      else if c = '[' then
        jsonParseElems fuel rest
      else if c = 't' then
        match rest with
        | 'r' :: 'u' :: 'e' :: r => some (.bool true, r)
        | _ => none
      else if c = 'f' then
        match rest with
        | 'a' :: 'l' :: 's' :: 'e' :: r => some (.bool false, r)
        | _ => none
      else if c = 'n' then
        match rest with
        | 'u' :: 'l' :: 'l' :: r => some (.null, r)
        | _ => none
      else if c = '-' || c.isDigit then
        let lit := (c :: rest).takeWhile jsonNumChar
        if jsonNumValid lit then
          some (.num lit, (c :: rest).dropWhile jsonNumChar)
        else none
      else none

/-- Parse an object body (after the opening brace). -/
def jsonParseMembers (fuel : Nat) (input : List Char) :
    Option (Json × List Char) :=
  match fuel with
  | 0 => none
  | fuel + 1 =>
    match jsonSkipWs input with
    | '\x7d' :: rest => some (.obj [], rest)
    | other => (jsonParseMemberList fuel other).map
        (fun p => (.obj p.1, p.2))

/-- Parse a nonempty member list (expects a key string next). -/
def jsonParseMemberList (fuel : Nat) (input : List Char) :
    Option (List (List Char × Json) × List Char) :=
  match fuel with
  | 0 => none
  | fuel + 1 =>
    match jsonSkipWs input with
    | '"' :: r0 =>
      match jsonParseStringBody r0 with
      | none => none
      | some (key, r1) =>
        match jsonSkipWs r1 with
        | ':' :: r2 =>
          match jsonParseValue fuel r2 with
          | none => none
          | some (v, r3) =>
            match jsonSkipWs r3 with
            | ',' :: r4 =>
              (jsonParseMemberList fuel r4).map
                (fun p => ((key, v) :: p.1, p.2))
            | '\x7d' :: r4 => some ([(key, v)], r4)
            | _ => none
        | _ => none
    | _ => none

/-- Parse an array body (after the opening bracket). -/
def jsonParseElems (fuel : Nat) (input : List Char) :
    Option (Json × List Char) :=
  match fuel with
  | 0 => none
  | fuel + 1 =>
    match jsonSkipWs input with
    | ']' :: rest => some (.arr [], rest)
    | other => (jsonParseElemList fuel other).map
        (fun p => (.arr p.1, p.2))

/-- Parse a nonempty element list. -/
def jsonParseElemList (fuel : Nat) (input : List Char) :
    Option (List Json × List Char) :=
  match fuel with
  | 0 => none
  | fuel + 1 =>
    match jsonParseValue fuel input with
    | none => none
    | some (v, r1) =>
      match jsonSkipWs r1 with
      | ',' :: r2 => (jsonParseElemList fuel r2).map
          (fun p => (v :: p.1, p.2))
      | ']' :: r2 => some ([v], r2)
      | _ => none

end

/-- Parse a complete JSON document (ample fuel for any input). -/
def jsonParse (s : List Char) : Option (Json × List Char) :=
  jsonParseValue (3 * s.length + 3) s

/-- Last value recorded for a key in an object (`json.Unmarshal` lets a
later duplicate key overwrite an earlier one). -/
def jsonObjLast (kvs : List (List Char × Json)) (k : List Char) :
    Option Json :=
  match kvs.reverse.find? (fun p => decide (p.1 = k)) with
  | none => none
  | some p => some p.2

/-- Decode a string-typed struct field: `some none` when absent or null,
`some (some s)` when a string, `none` (error) otherwise. -/
def jsonFieldStr (kvs : List (List Char × Json)) (k : List Char) :
    Option (Option (List Char)) :=
  match jsonObjLast kvs k with
  | none => some none
  | some (.str s) => some (some s)
  | some .null => some none
  | some _ => none

/-- Value of a digit run. -/
def digitsToNat (ds : List Char) : Nat :=
  ds.foldl (fun a c => 10 * a + (c.toNat - 48)) 0

/-- Go `strconv.ParseInt` on a JSON number literal (used for `int64`
struct fields): an optional sign followed by digits only. -/
def jsonLitToInt (l : List Char) : Option Int :=
  match l with
  | '-' :: ds =>
    if ds ≠ [] ∧ ds.all Char.isDigit then some (-(digitsToNat ds : Int))
    else none
  | ds =>
    if ds ≠ [] ∧ ds.all Char.isDigit then some (digitsToNat ds : Int)
    else none

/-- Decode an `int64`-typed struct field. -/
def jsonFieldInt (kvs : List (List Char × Json)) (k : List Char) :
    Option (Option Int) :=
  match jsonObjLast kvs k with
  | none => some none
  | some (.num l) => (jsonLitToInt l).map some
  | some .null => some none
  | some _ => none

/-- Decode a JSON array of strings (`null` elements decode to empty). -/
def jsonStrArray : List Json → Option (List (List Char))
  | [] => some []
  | .str s :: rest => (jsonStrArray rest).map (s :: ·)
  | .null :: rest => (jsonStrArray rest).map ([] :: ·)
  | _ => none

/-- Decode a `[]string`-typed struct field. -/
def jsonFieldStrArr (kvs : List (List Char × Json)) (k : List Char) :
    Option (Option (List (List Char))) :=
  match jsonObjLast kvs k with
  | none => some none
  | some (.arr xs) => (jsonStrArray xs).map some
  | some .null => some none
  | some _ => none

/-- `json.Unmarshal(data, &claims)` for the `Claims` struct. -/
def decodeClaimsJson (data : List Char) : Option Claims :=
  match jsonParse data with
  | some (.obj kvs, rest) =>
    if jsonSkipWs rest = [] then
      match jsonFieldInt kvs (str "exp"), jsonFieldInt kvs (str "iat"),
            jsonFieldStr kvs (str "sub"),
            jsonFieldStr kvs (str "kundenkontoid"),
            jsonFieldStr kvs (str "preferred_username"),
            jsonFieldStr kvs (str "scope"),
            jsonFieldStrArr kvs (str "groups") with
      | some e, some i, some s, some kk, some pu, some sc, some g =>
        some { Exp := e.getD 0, Iat := i.getD 0, Sub := s.getD [],
               Kundenkontoid := kk.getD [], PreferredUsername := pu.getD [],
               Scope := sc.getD [], Groups := g.getD [] }
      | _, _, _, _, _, _, _ => none
    else none
  | _ => none

/-- `json.Unmarshal(body, &errResp)` for the anonymous
`{error, error_description}` struct in `exchangeCode`. -/
def decodeOAuthError (body : List Char) : Option (List Char × List Char) :=
  match jsonParse body with
  | some (.obj kvs, rest) =>
    if jsonSkipWs rest = [] then
      match jsonFieldStr kvs (str "error"),
            jsonFieldStr kvs (str "error_description") with
      | some e, some d => some (e.getD [], d.getD [])
      | _, _ => none
    else none
  | _ => none

/-! ## `ParseJWT` and `TokenSetFromJWT`

Translated from the token file of `internal/auth`.  The wrapped standard
library error texts inside "invalid JWT payload/claims" failures are
abbreviated to their prefixes; no caller inspects them. -/

def ParseJWT (token : List Char) : Except (List Char) Claims :=
  let parts := splitSep '.' token
  if parts.length ≠ 3 then .error (str "invalid JWT: expected 3 parts")
  else
    let payload := parts.getD 1 []
    let padded :=
      if payload.length % 4 = 2 then payload ++ str "=="
      else if payload.length % 4 = 3 then payload ++ str "="
      else payload
    match base64urlDecode padded with
    | none => .error (str "invalid JWT payload")
    | some bytes =>
      match decodeClaimsJson (bytes.map Char.ofNat) with
      | none => .error (str "invalid JWT claims")
      | some claims => .ok claims

def TokenSetFromJWT (accessToken : List Char) : Except (List Char) TokenSet :=
  match ParseJWT accessToken with
  | .error e => .error e
  | .ok claims =>
    .ok { AccessToken := accessToken
          IDToken := []
          ExpiresAt := GoTime.unix claims.Exp 0
          Kundenkontoid := claims.Kundenkontoid
          Sub := claims.Sub
          Username := claims.PreferredUsername }

/-! ## `exchangeCode` (oidc.go lines 198-256)

The HTTP round trip is passed in as the response status and body (or the
already-decoded success body).  On a non-`200` status the failure message
is built from the decoded provider error when available, else from the
raw status and body.  On success the token set is built by
`TokenSetFromJWT` from the access token alone (the function reads no
clock, and the response's `expires_in` is never consulted); the response
`id_token` is then attached.  (The `oidc.go` draft also assigns a
`RefreshToken` field that the persisted `TokenSet` struct does not
declare; it has no stored counterpart and is omitted.) -/

/-- The decoded success body of the token endpoint. -/
structure TokenResp where
  access_token : List Char
  id_token : List Char
  refresh_token : List Char
  token_type : List Char
  expires_in : Int
  scope : List Char
  deriving DecidableEq, Repr

/-- The failure message for a non-`200` token-endpoint response. -/
def exchangeCodeFailureMsg (status : Nat) (body : List Char) : List Char :=
  match decodeOAuthError body with
  | some (e, d) =>
    if e ≠ [] then str "token exchange failed: " ++ e ++ str " — " ++ d
    else str "token exchange failed with status " ++ (Nat.repr status).data ++
      str ": " ++ body
  | none =>
    str "token exchange failed with status " ++ (Nat.repr status).data ++
      str ": " ++ body

/-- The success path of `exchangeCode` on the decoded response. -/
def exchangeCodeSuccess (resp : TokenResp) : Except (List Char) TokenSet :=
  match TokenSetFromJWT resp.access_token with
  | .error e => .error e
  | .ok ts => .ok { ts with IDToken := resp.id_token }

/-! ## Theorems for C3 -/

/-- C3: for every successful token exchange, the produced token set's
`ExpiresAt` is `time.Unix(exp, 0)` for the `exp` claim decoded from the
access token itself, and the result is invariant under the response's
`expires_in` (the success path consults no clock at all: the model is a
pure function of the decoded response, faithfully to the source, which
contains no `time.Now` call). -/
theorem exchange_expiresAt_from_exp (resp : TokenResp) (claims : Claims)
    (h : ParseJWT resp.access_token = .ok claims) :
    ∃ ts, exchangeCodeSuccess resp = .ok ts ∧
      ts.ExpiresAt = GoTime.unix claims.Exp 0 ∧
      ts.ExpiresAt.nanos = claims.Exp * goSecond ∧
      (∀ e, exchangeCodeSuccess { resp with expires_in := e } =
        exchangeCodeSuccess resp) := by
  refine ⟨{ AccessToken := resp.access_token, IDToken := resp.id_token,
            ExpiresAt := GoTime.unix claims.Exp 0,
            Kundenkontoid := claims.Kundenkontoid, Sub := claims.Sub,
            Username := claims.PreferredUsername }, ?_, rfl, ?_,
          fun e => rfl⟩
  · simp [exchangeCodeSuccess, TokenSetFromJWT, h]
  · simp [GoTime.unix]

set_option maxRecDepth 100000 in
/-- C3 witness: a concrete JWT whose payload carries
`exp = 1700000000`. -/
theorem exchange_expiresAt_from_exp_witness :
    ∃ ts,
      exchangeCodeSuccess
        { access_token := str "h.eyJleHAiOjE3MDAwMDAwMDAsImlhdCI6MTY5OTk5OTcwMCwic3ViIjoiczEiLCJrdW5kZW5rb250b2lkIjoiazEiLCJwcmVmZXJyZWRfdXNlcm5hbWUiOiJ1MSIsInNjb3BlIjoib3BlbmlkIiwiZ3JvdXBzIjpbXX0.s"
          id_token := str "id", refresh_token := [], token_type := []
          expires_in := 300, scope := str "openid" } = .ok ts ∧
      ts.ExpiresAt = GoTime.unix 1700000000 0 ∧
      ts.ExpiresAt.nanos = 1700000000 * goSecond ∧
      (∀ e, exchangeCodeSuccess
        { access_token := str "h.eyJleHAiOjE3MDAwMDAwMDAsImlhdCI6MTY5OTk5OTcwMCwic3ViIjoiczEiLCJrdW5kZW5rb250b2lkIjoiazEiLCJwcmVmZXJyZWRfdXNlcm5hbWUiOiJ1MSIsInNjb3BlIjoib3BlbmlkIiwiZ3JvdXBzIjpbXX0.s"
          id_token := str "id", refresh_token := [], token_type := []
          expires_in := e, scope := str "openid" } =
        exchangeCodeSuccess
        { access_token := str "h.eyJleHAiOjE3MDAwMDAwMDAsImlhdCI6MTY5OTk5OTcwMCwic3ViIjoiczEiLCJrdW5kZW5rb250b2lkIjoiazEiLCJwcmVmZXJyZWRfdXNlcm5hbWUiOiJ1MSIsInNjb3BlIjoib3BlbmlkIiwiZ3JvdXBzIjpbXX0.s"
          id_token := str "id", refresh_token := [], token_type := []
          expires_in := 300, scope := str "openid" }) :=
  exchange_expiresAt_from_exp _
    { Exp := 1700000000, Iat := 1699999700, Sub := str "s1",
      Kundenkontoid := str "k1", PreferredUsername := str "u1",
      Scope := str "openid", Groups := [] } (by rfl)

/-! ## Theorems for C7 -/

/-- C7: a non-success token-endpoint response whose body decodes to a
structured provider error with nonempty `error` yields the failure
message `token exchange failed: <error> — <error_description>`, which
contains both fields verbatim; any other non-success response (body not
decodable, or empty `error` field) yields the raw-status message
`token exchange failed with status <status>: <body>`, which contains the
body verbatim. -/
theorem exchangeFailure_message (status : Nat) (body e d : List Char) :
    (decodeOAuthError body = some (e, d) → e ≠ [] →
      exchangeCodeFailureMsg status body =
        str "token exchange failed: " ++ e ++ str " — " ++ d ∧
      goContains (exchangeCodeFailureMsg status body) e = true ∧
      goContains (exchangeCodeFailureMsg status body) d = true) ∧
    (decodeOAuthError body = none →
      exchangeCodeFailureMsg status body =
        str "token exchange failed with status " ++ (Nat.repr status).data ++
          str ": " ++ body ∧
      goContains (exchangeCodeFailureMsg status body) body = true) ∧
    (decodeOAuthError body = some ([], d) →
      exchangeCodeFailureMsg status body =
        str "token exchange failed with status " ++ (Nat.repr status).data ++
          str ": " ++ body) := by
  refine ⟨?_, ?_, ?_⟩
  · intro h he
    have hmsg : exchangeCodeFailureMsg status body =
        str "token exchange failed: " ++ e ++ str " — " ++ d := by
      simp [exchangeCodeFailureMsg, h, he]
    refine ⟨hmsg, ?_, ?_⟩
    · rw [hmsg]
      exact goContains_of_infix <| infix_append_left _ <|
        infix_append_left _ <| (List.suffix_append _ e).isInfix
    · rw [hmsg]
      exact goContains_of_infix <| (List.suffix_append _ d).isInfix
  · intro h
    have hmsg : exchangeCodeFailureMsg status body =
        str "token exchange failed with status " ++ (Nat.repr status).data ++
          str ": " ++ body := by
      simp [exchangeCodeFailureMsg, h]
    refine ⟨hmsg, ?_⟩
    rw [hmsg]
    exact goContains_of_infix <| (List.suffix_append _ body).isInfix
  · intro h
    simp [exchangeCodeFailureMsg, h]

/-- C7 witness: the specification's scenario — HTTP 400 with body
`{"error":"invalid_grant","error_description":"Code not valid"}` — and a
non-decodable body. -/
theorem exchangeFailure_message_witness :
    (exchangeCodeFailureMsg 400
        (str "\x7b\"error\":\"invalid_grant\",\"error_description\":\"Code not valid\"\x7d") =
      str "token exchange failed: " ++ str "invalid_grant" ++ str " — " ++
        str "Code not valid" ∧
      goContains (exchangeCodeFailureMsg 400
        (str "\x7b\"error\":\"invalid_grant\",\"error_description\":\"Code not valid\"\x7d"))
        (str "invalid_grant") = true ∧
      goContains (exchangeCodeFailureMsg 400
        (str "\x7b\"error\":\"invalid_grant\",\"error_description\":\"Code not valid\"\x7d"))
        (str "Code not valid") = true) ∧
    (exchangeCodeFailureMsg 500 (str "oops") =
      str "token exchange failed with status " ++ (Nat.repr 500).data ++
        str ": " ++ str "oops" ∧
      goContains (exchangeCodeFailureMsg 500 (str "oops")) (str "oops") = true) := by
  constructor
  · exact (exchangeFailure_message 400
      (str "\x7b\"error\":\"invalid_grant\",\"error_description\":\"Code not valid\"\x7d")
      (str "invalid_grant") (str "Code not valid")).1 (by rfl) (by decide)
  · exact (exchangeFailure_message 500 (str "oops") [] []).2.1 (by rfl)

/-! ## Calendar (model of the Go `time` package's date computations)

Go converts between absolute days and civil dates with the proleptic
Gregorian calendar.  We model the two directions with a shifted,
March-based decomposition (the year-lookup greedy over 400/100/4/1-year
blocks, as in Go's `absDate`): `civilFromDays` maps days counted from
March 1 of the year -400 to a (shifted-by-400) civil date, and
`daysFromCivil` is its inverse.  Day 0 of this scale is 865565 days
before 1970-01-01.  Both compute exactly the Gregorian calendar, hence
agree with Go's own formulas. -/

def civilFromDays (zn : Nat) : Nat × Nat × Nat :=
  let era := zn / 146097
  let doe := zn % 146097
  let n100 := min (doe / 36524) 3
  let r1 := doe - 36524 * n100
  let n4 := r1 / 1461
  let r2 := r1 % 1461
  let n1 := min (r2 / 365) 3
  let yday := r2 - 365 * n1
  let yoe := 100 * n100 + 4 * n4 + n1
  let mp := (5 * yday + 2) / 153
  let d := yday - (153 * mp + 2) / 5 + 1
  let m := if mp < 10 then mp + 3 else mp - 9
  let y := era * 400 + yoe + (if m ≤ 2 then 1 else 0)
  (y, m, d)

def daysFromCivil (y m d : Nat) : Nat :=
  let y' := if m ≤ 2 then y - 1 else y
  let era := y' / 400
  let yoe := y' % 400
  let mp := if 2 < m then m - 3 else m + 9
  let doy := (153 * mp + 2) / 5 + d - 1
  let doe := 365 * yoe + yoe / 4 - yoe / 100 + doy
  era * 146097 + doe

/-- Go `isLeap`. -/
def isLeap (y : Nat) : Bool := y % 4 = 0 && (y % 100 != 0 || y % 400 = 0)

/-- Go `daysIn(m, year)`. -/
def daysIn (m y : Nat) : Nat :=
  if m = 2 then (if isLeap y then 29 else 28)
  else if m = 4 || m = 6 || m = 9 || m = 11 then 30 else 31

/-! ## Decimal digit printing and parsing -/

def digitChar (n : Nat) : Char := Char.ofNat (48 + n % 10)

/-- Zero-padded fixed-width decimal rendering (width `w`). -/
def padDigits : Nat → Nat → List Char
  | 0, _ => []
  | w + 1, n => padDigits w (n / 10) ++ [digitChar n]

def pad2 (n : Nat) : List Char := padDigits 2 n

def pad4 (n : Nat) : List Char := padDigits 4 n

def pad9 (n : Nat) : List Char := padDigits 9 n

def digitVal (c : Char) : Option Nat :=
  if c.isDigit then some (c.toNat - 48) else none

def parse2 : List Char → Option (Nat × List Char)
  | a :: b :: rest =>
    match digitVal a, digitVal b with
    | some x, some y => some (10 * x + y, rest)
    | _, _ => none
  | _ => none

def parse4 : List Char → Option (Nat × List Char)
  | a :: b :: c :: d :: rest =>
    match digitVal a, digitVal b, digitVal c, digitVal d with
    | some x, some y, some z, some w =>
      some (1000 * x + 100 * y + 10 * z + w, rest)
    | _, _, _, _ => none
  | _ => none

def expectChar (c : Char) : List Char → Option (List Char)
  | x :: rest => if x = c then some rest else none
  | [] => none

/-! ## RFC 3339 timestamps (model of Go `time.Time` JSON marshaling)

`time.Time.MarshalJSON` refuses years outside `[0, 9999]` and otherwise
renders the RFC 3339 timestamp with nanoseconds (fraction omitted when
zero, trailing zeros trimmed); `UnmarshalJSON` parses it back, range
checks included.  The model renders the instant in UTC (`Z`); Go renders
whatever fixed offset the value carries and restores the same instant,
so the instant-level behavior is identical. -/

def SHIFT_DAYS : Nat := 865565

def SHIFT_NS : Int := (865565 : Int) * 86400 * 1000000000

/-- Trailing-zero trimming for the fractional second. -/
def dropTrailingZeros (l : List Char) : List Char :=
  (l.reverse.dropWhile (· = '0')).reverse

/-- The `.fraction` part (empty when the instant is a whole second). -/
def fracPart (ns : Nat) : List Char :=
  if ns = 0 then [] else '.' :: dropTrailingZeros (pad9 ns)

/-- RFC 3339 rendering of an instant, or `none` when the year falls
outside `[0, 9999]` (as `MarshalJSON` refuses). -/
def formatRFC3339 (t : GoTime) : Option (List Char) :=
  let total := (t.nanos + SHIFT_NS).toNat
  let ns := total % 1000000000
  let secs := total / 1000000000
  let zdays := secs / 86400
  let sod := secs % 86400
  let c := civilFromDays zdays
  if 400 ≤ c.1 ∧ c.1 ≤ 10399 ∧ (0 : Int) ≤ t.nanos + SHIFT_NS then
    some (pad4 (c.1 - 400) ++ '-' :: (pad2 c.2.1 ++ '-' :: (pad2 c.2.2 ++
      'T' :: (pad2 (sod / 3600) ++ ':' :: (pad2 (sod % 3600 / 60) ++
      ':' :: (pad2 (sod % 60) ++ (fracPart ns ++ ['Z'])))))))
  else none

/-- Parse the optional fractional second (1-9 digits after `.`). -/
def parseFrac : List Char → Option (Nat × List Char)
  | '.' :: rest =>
    let ds := rest.takeWhile Char.isDigit
    if 1 ≤ ds.length ∧ ds.length ≤ 9 then
      some (digitsToNat ds * 10 ^ (9 - ds.length), rest.dropWhile Char.isDigit)
    else none
  | l => some (0, l)

/-- Strict RFC 3339 parsing (as Go's `parseRFC3339`): fixed-width date
and time fields, range checks including days-in-month, optional
fraction, and a `Z` zone designator consuming the whole input. -/
def parseRFC3339 (l : List Char) : Option GoTime := do
  let (y, r1) ← parse4 l
  let r2 ← expectChar '-' r1
  let (mo, r3) ← parse2 r2
  let r4 ← expectChar '-' r3
  let (d, r5) ← parse2 r4
  let r6 ← expectChar 'T' r5
  let (hh, r7) ← parse2 r6
  let r8 ← expectChar ':' r7
  let (mi, r9) ← parse2 r8
  let r10 ← expectChar ':' r9
  let (ss, r11) ← parse2 r10
  let (ns, r12) ← parseFrac r11
  let r13 ← expectChar 'Z' r12
  if r13 = [] ∧ 1 ≤ mo ∧ mo ≤ 12 ∧ 1 ≤ d ∧ d ≤ daysIn mo y ∧
      hh ≤ 23 ∧ mi ≤ 59 ∧ ss ≤ 59 then
    some ⟨((daysFromCivil (y + 400) mo d * 86400 +
      hh * 3600 + mi * 60 + ss : Nat) : Int) * 1000000000 + ns - SHIFT_NS⟩
  else none

/-! ## Calendar and timestamp lemmas -/

theorem civil_roundtrip (zn : Nat) :
    daysFromCivil (civilFromDays zn).1 (civilFromDays zn).2.1
      (civilFromDays zn).2.2 = zn := by
  unfold civilFromDays daysFromCivil
  simp only
  set era := zn / 146097 with h1
  set doe := zn % 146097 with h2
  set n100 := min (doe / 36524) 3 with h3
  set r1 := doe - 36524 * n100 with h4
  set n4 := r1 / 1461 with h5
  set r2 := r1 % 1461 with h6
  set n1 := min (r2 / 365) 3 with h7
  set yday := r2 - 365 * n1 with h8
  set yoe := 100 * n100 + 4 * n4 + n1 with h9
  set mp := (5 * yday + 2) / 153 with h10
  have hdoe : doe ≤ 146096 := by omega
  have hn100 : n100 ≤ 3 := by omega
  have hr1 : r1 ≤ 36524 := by omega
  have hn4 : n4 ≤ 24 := by omega
  have hr2 : r2 ≤ 1460 := by omega
  have hn1 : n1 ≤ 3 := by omega
  have hyday : yday ≤ 365 := by omega
  have hmp11 : mp ≤ 11 := by omega
  have hyoe : yoe ≤ 399 := by omega
  have hq4 : yoe / 4 = 25 * n100 + n4 := by omega
  have hq100 : yoe / 100 = n100 := by omega
  have hdm : (153 * mp + 2) / 5 ≤ yday := by omega
  have hrec : 36524 * n100 + 1461 * n4 + 365 * n1 + yday = doe := by omega
  by_cases hm : mp < 10
  · rw [if_pos hm]
    rw [show (if mp + 3 ≤ 2 then 1 else 0) = 0 from if_neg (by omega)]
    rw [show (if mp + 3 ≤ 2 then era * 400 + yoe + 0 - 1
        else era * 400 + yoe + 0) = era * 400 + yoe by
      rw [if_neg (by omega : ¬ (mp + 3 ≤ 2))]; omega]
    rw [show (if 2 < mp + 3 then mp + 3 - 3 else mp + 3 + 9) = mp by
      rw [if_pos (by omega : 2 < mp + 3)]; omega]
    have hdiv : (era * 400 + yoe) / 400 = era := by omega
    have hmod : (era * 400 + yoe) % 400 = yoe := by omega
    rw [hdiv, hmod]
    omega
  · rw [if_neg hm]
    rw [show (if mp - 9 ≤ 2 then 1 else 0) = 1 from if_pos (by omega)]
    rw [show (if mp - 9 ≤ 2 then era * 400 + yoe + 1 - 1
        else era * 400 + yoe + 1) = era * 400 + yoe by
      rw [if_pos (by omega : mp - 9 ≤ 2)]; omega]
    rw [show (if 2 < mp - 9 then mp - 9 - 3 else mp - 9 + 9) = mp by
      rw [if_neg (by omega : ¬ (2 < mp - 9))]; omega]
    have hdiv : (era * 400 + yoe) / 400 = era := by omega
    have hmod : (era * 400 + yoe) % 400 = yoe := by omega
    rw [hdiv, hmod]
    omega

theorem civilFromDays_valid (zn : Nat) (hy : 400 ≤ (civilFromDays zn).1) :
    1 ≤ (civilFromDays zn).2.1 ∧ (civilFromDays zn).2.1 ≤ 12 ∧
    1 ≤ (civilFromDays zn).2.2 ∧
    (civilFromDays zn).2.2 ≤
      daysIn (civilFromDays zn).2.1 ((civilFromDays zn).1 - 400) := by
  unfold civilFromDays at hy ⊢
  simp only at hy ⊢
  set era := zn / 146097 with h1
  set doe := zn % 146097 with h2
  set n100 := min (doe / 36524) 3 with h3
  set r1 := doe - 36524 * n100 with h4
  set n4 := r1 / 1461 with h5
  set r2 := r1 % 1461 with h6
  set n1 := min (r2 / 365) 3 with h7
  set yday := r2 - 365 * n1 with h8
  set yoe := 100 * n100 + 4 * n4 + n1 with h9
  set mp := (5 * yday + 2) / 153 with h10
  have hdoe : doe ≤ 146096 := by omega
  have hn100 : n100 ≤ 3 := by omega
  have hr1 : r1 ≤ 36524 := by omega
  have hn4 : n4 ≤ 24 := by omega
  have hr2 : r2 ≤ 1460 := by omega
  have hn1 : n1 ≤ 3 := by omega
  have hyday : yday ≤ 365 := by omega
  have hmp11 : mp ≤ 11 := by omega
  have hyoe : yoe ≤ 399 := by omega
  have hdm : (153 * mp + 2) / 5 ≤ yday := by omega
  have hfeb : yday = 365 → n1 = 3 ∧ r2 = 1460 := by omega
  have hfeb2 : r2 = 1460 ∧ n4 = 24 → r1 = 36524 := by omega
  have hfeb3 : r1 = 36524 → n100 = 3 := by omega
  by_cases hm : mp < 10
  · rw [if_pos hm] at hy ⊢
    rw [show (if mp + 3 ≤ 2 then 1 else 0) = 0 from if_neg (by omega)]
      at hy ⊢
    refine ⟨by omega, by omega, by omega, ?_⟩
    unfold daysIn
    rw [if_neg (by omega : ¬ (mp + 3 = 2))]
    by_cases h30 : mp + 3 = 4 || mp + 3 = 6 || mp + 3 = 9 || mp + 3 = 11
    · rw [if_pos h30]
      simp only [Bool.or_eq_true, decide_eq_true_eq] at h30
      omega
    · rw [if_neg h30]
      simp only [Bool.or_eq_true, decide_eq_true_eq, not_or] at h30
      omega
  · rw [if_neg hm] at hy ⊢
    rw [show (if mp - 9 ≤ 2 then 1 else 0) = 1 from if_pos (by omega)]
      at hy ⊢
    refine ⟨by omega, by omega, by omega, ?_⟩
    unfold daysIn
    by_cases hfebm : mp - 9 = 2
    · rw [if_pos hfebm]
      by_cases hl : isLeap (era * 400 + yoe + 1 - 400) = true
      · rw [if_pos hl]
        omega
      · rw [if_neg hl]
        simp only [isLeap, Bool.and_eq_true, Bool.or_eq_true, bne_iff_ne,
          ne_eq, decide_eq_true_eq, not_and, not_or, Decidable.not_not] at hl
        by_cases hyd : yday = 365
        · exfalso
          obtain ⟨hn1a, hr2a⟩ := hfeb hyd
          omega
        · omega
    · rw [if_neg hfebm]
      by_cases h30 : mp - 9 = 4 || mp - 9 = 6 || mp - 9 = 9 || mp - 9 = 11
      · rw [if_pos h30]
        simp only [Bool.or_eq_true, decide_eq_true_eq] at h30
        omega
      · rw [if_neg h30]
        simp only [Bool.or_eq_true, decide_eq_true_eq, not_or] at h30
        omega

theorem charDigit_props (j : Nat) (h : j < 10) :
    (Char.ofNat (48 + j)).toNat = 48 + j ∧
    (Char.ofNat (48 + j)).isDigit = true ∧
    digitVal (Char.ofNat (48 + j)) = some j := by
  interval_cases j <;> exact ⟨by decide, by decide, by decide⟩

theorem digitVal_digitChar (n : Nat) :
    digitVal (digitChar n) = some (n % 10) := by
  unfold digitChar
  exact (charDigit_props (n % 10) (Nat.mod_lt _ (by omega))).2.2

theorem digitChar_toNat (n : Nat) : (digitChar n).toNat = 48 + n % 10 := by
  unfold digitChar
  exact (charDigit_props (n % 10) (Nat.mod_lt _ (by omega))).1

theorem digitChar_isDigit (n : Nat) : (digitChar n).isDigit = true := by
  unfold digitChar
  exact (charDigit_props (n % 10) (Nat.mod_lt _ (by omega))).2.1

theorem pad2_eq (n : Nat) : pad2 n = [digitChar (n / 10), digitChar n] := by
  simp [pad2, padDigits]

theorem pad4_eq (n : Nat) :
    pad4 n = [digitChar (n / 1000), digitChar (n / 100), digitChar (n / 10),
      digitChar n] := by
  simp [pad4, padDigits, Nat.div_div_eq_div_mul]

theorem parse2_pad2 (n : Nat) (h : n < 100) (rest : List Char) :
    parse2 (pad2 n ++ rest) = some (n, rest) := by
  simp only [pad2_eq, List.cons_append, List.nil_append, parse2,
    digitVal_digitChar]
  congr 2
  omega

theorem parse4_pad4 (n : Nat) (h : n < 10000) (rest : List Char) :
    parse4 (pad4 n ++ rest) = some (n, rest) := by
  simp only [pad4_eq, List.cons_append, List.nil_append, parse4,
    digitVal_digitChar]
  congr 2
  omega

theorem expectChar_cons (c : Char) (rest : List Char) :
    expectChar c (c :: rest) = some rest := by
  simp [expectChar]

theorem digitsToNat_padDigits (w n : Nat) :
    digitsToNat (padDigits w n) = n % 10 ^ w := by
  induction w generalizing n with
  | zero => simp [padDigits, digitsToNat, Nat.mod_one]
  | succ w ih =>
    have hstep : digitsToNat (padDigits w (n / 10) ++ [digitChar n]) =
        10 * digitsToNat (padDigits w (n / 10)) + n % 10 := by
      simp only [digitsToNat, List.foldl_append, List.foldl_cons,
        List.foldl_nil, digitChar_toNat]
      omega
    rw [padDigits, hstep, ih]
    rw [pow_succ, Nat.mul_comm (10 ^ w) 10, Nat.mod_mul]
    ring

theorem padDigits_len (w n : Nat) : (padDigits w n).length = w := by
  induction w generalizing n with
  | zero => simp [padDigits]
  | succ w ih => simp [padDigits, ih]

theorem padDigits_digits (w n : Nat) :
    ∀ c ∈ padDigits w n, c.isDigit = true := by
  induction w generalizing n with
  | zero => simp [padDigits]
  | succ w ih =>
    intro c hc
    rw [padDigits] at hc
    rcases List.mem_append.1 hc with h | h
    · exact ih _ c h
    · simp only [List.mem_singleton] at h
      subst h
      exact digitChar_isDigit _

theorem digitsToNat_pad9 (n : Nat) (h : n < 1000000000) :
    digitsToNat (pad9 n) = n := by
  rw [pad9, digitsToNat_padDigits]
  omega

theorem takeWhile_digits_append (ds rest : List Char)
    (h : ∀ c ∈ ds, c.isDigit = true) :
    (ds ++ 'Z' :: rest).takeWhile Char.isDigit = ds ∧
    (ds ++ 'Z' :: rest).dropWhile Char.isDigit = 'Z' :: rest := by
  induction ds with
  | nil => simp [List.takeWhile, List.dropWhile]
  | cons c ds ih =>
    have hc : c.isDigit = true := h c (List.mem_cons_self c ds)
    have hrec := ih (fun x hx => h x (List.mem_cons_of_mem c hx))
    simp [List.takeWhile, List.dropWhile, hc, hrec.1, hrec.2]

theorem dropTrailingZeros_spec (l : List Char) :
    l = dropTrailingZeros l ++
      List.replicate (l.length - (dropTrailingZeros l).length) '0' ∧
    (dropTrailingZeros l).length ≤ l.length := by
  unfold dropTrailingZeros
  have h1 : l.reverse.takeWhile (· = '0') ++ l.reverse.dropWhile (· = '0')
      = l.reverse := List.takeWhile_append_dropWhile _ l.reverse
  have h2 : l.reverse.takeWhile (· = '0') =
      List.replicate (l.reverse.takeWhile (· = '0')).length '0' := by
    apply List.eq_replicate_of_mem
    intro b hb
    simpa using List.mem_takeWhile_imp hb
  have hlen : (l.reverse.dropWhile (· = '0')).length ≤ l.length := by
    have := congrArg List.length h1
    simp only [List.length_append, List.length_reverse] at this
    omega
  constructor
  · apply List.reverse_injective
    rw [List.reverse_append, List.reverse_replicate, List.reverse_reverse]
    have hk : l.length - (l.reverse.dropWhile (· = '0')).reverse.length =
        (l.reverse.takeWhile (· = '0')).length := by
      have := congrArg List.length h1
      simp only [List.length_append, List.length_reverse] at this ⊢
      omega
    rw [hk, ← h2]
    exact h1.symm
  · simpa using hlen

theorem digitsToNat_append_zeros (l : List Char) (k : Nat) :
    digitsToNat (l ++ List.replicate k '0') = digitsToNat l * 10 ^ k := by
  induction k with
  | zero => simp [digitsToNat]
  | succ k ih =>
    rw [List.replicate_succ', ← List.append_assoc]
    have hstep : digitsToNat ((l ++ List.replicate k '0') ++ ['0']) =
        10 * digitsToNat (l ++ List.replicate k '0') := by
      simp only [digitsToNat, List.foldl_append, List.foldl_cons,
        List.foldl_nil]
      have : '0'.toNat = 48 := by decide
      omega
    rw [hstep, ih, pow_succ]
    ring

theorem parseFrac_fracPart (ns : Nat) (h : ns < 1000000000) :
    parseFrac (fracPart ns ++ ['Z']) = some (ns, ['Z']) := by
  by_cases h0 : ns = 0
  · subst h0
    simp [fracPart, parseFrac]
  · have hfp : fracPart ns = '.' :: dropTrailingZeros (pad9 ns) := by
      simp [fracPart, h0]
    obtain ⟨hrec, hlen⟩ := dropTrailingZeros_spec (pad9 ns)
    have hlen9 : (pad9 ns).length = 9 := by rw [pad9, padDigits_len]
    rw [hlen9] at hrec hlen
    set ds := dropTrailingZeros (pad9 ns) with hds
    have hdig : ∀ c ∈ ds, c.isDigit = true := by
      intro c hc
      apply padDigits_digits 9 ns
      rw [← pad9, hrec]
      exact List.mem_append_left _ hc
    have hne : ds ≠ [] := by
      intro hnil
      rw [hnil] at hrec
      have hz : digitsToNat (pad9 ns) = 0 := by
        rw [hrec, List.nil_append]
        have ha := digitsToNat_append_zeros [] (9 - ([] : List Char).length)
        rw [List.nil_append] at ha
        rw [ha]
        simp [digitsToNat]
      rw [digitsToNat_pad9 ns h] at hz
      exact h0 hz
    have hval : digitsToNat ds * 10 ^ (9 - ds.length) = ns := by
      have ha := digitsToNat_append_zeros ds (9 - ds.length)
      rw [← hrec, digitsToNat_pad9 ns h] at ha
      exact ha.symm
    have hpos : 0 < ds.length := List.length_pos.2 hne
    have htk := takeWhile_digits_append ds [] hdig
    rw [hfp]
    simp only [List.cons_append, parseFrac, htk.1, htk.2]
    rw [if_pos ⟨by omega, by omega⟩, hval]


theorem daysIn_le_31 (m y : Nat) : daysIn m y ≤ 31 := by
  unfold daysIn
  by_cases h2 : m = 2
  · rw [if_pos h2]
    by_cases hl : isLeap y = true
    · rw [if_pos hl]; omega
    · rw [if_neg hl]; omega
  · rw [if_neg h2]
    by_cases h30 : m = 4 || m = 6 || m = 9 || m = 11
    · rw [if_pos h30]; omega
    · rw [if_neg h30]

theorem formatRFC3339_roundtrip (t : GoTime) (s : List Char)
    (h : formatRFC3339 t = some s) : parseRFC3339 s = some t := by
  unfold formatRFC3339 at h
  simp only at h
  split at h
  case isFalse => cases h
  case isTrue hcond =>
    obtain ⟨hy1, hy2, hy3⟩ := hcond
    injection h with h
    subst h
    set total := (t.nanos + SHIFT_NS).toNat with htot
    set ns := total % 1000000000 with hns
    set secs := total / 1000000000 with hsecs
    set zdays := secs / 86400 with hzd
    set sod := secs % 86400 with hsod
    set c := civilFromDays zdays with hc
    have hvalid := civilFromDays_valid zdays hy1
    rw [← hc] at hvalid
    have hns9 : ns < 1000000000 := by omega
    have hsod86 : sod < 86400 := by omega
    have hdle := daysIn_le_31 c.2.1 (c.1 - 400)
    unfold parseRFC3339
    rw [parse4_pad4 (c.1 - 400) (by omega)]
    simp only [bind, Option.bind]
    rw [expectChar_cons]
    simp only [bind, Option.bind]
    rw [parse2_pad2 c.2.1 (by omega)]
    simp only [bind, Option.bind]
    rw [expectChar_cons]
    simp only [bind, Option.bind]
    rw [parse2_pad2 c.2.2 (by omega)]
    simp only [bind, Option.bind]
    rw [expectChar_cons]
    simp only [bind, Option.bind]
    rw [parse2_pad2 (sod / 3600) (by omega)]
    simp only [bind, Option.bind]
    rw [expectChar_cons]
    simp only [bind, Option.bind]
    rw [parse2_pad2 (sod % 3600 / 60) (by omega)]
    simp only [bind, Option.bind]
    rw [expectChar_cons]
    simp only [bind, Option.bind]
    rw [parse2_pad2 (sod % 60) (by omega)]
    simp only [bind, Option.bind]
    rw [parseFrac_fracPart ns hns9]
    simp only [bind, Option.bind]
    rw [expectChar_cons]
    simp only [bind, Option.bind]
    rw [if_pos (by
      refine ⟨?_, ?_, ?_, ?_, ?_, ?_, ?_, ?_⟩ <;>
        first
          | trivial
          | exact hvalid.1
          | exact hvalid.2.1
          | exact hvalid.2.2.1
          | exact hvalid.2.2.2
          | omega)]
    congr 1
    have hc400 : c.1 - 400 + 400 = c.1 := by omega
    rw [hc400, civil_roundtrip zdays]
    congr 1
    omega

end BahnVerify
